import Mathlib

/-!
Verification of the FTE report pipeline (`web_functions.py` of FTECalcWebsite).

Numbers are modelled as rationals; missing values (pandas `NaN`) as `Option`.
`round` / `Series.round` is Python/numpy round-half-even, `"{:,.Nf}"`
formatting and the `replace('$','').replace(',','').astype(float)` parse used
by the app are modelled over decimal digit lists.  Stable multi-column
`sort_values` is modelled with a stable sort (`List.insertionSort`) under the
same key order (missing keys last).
-/

/-- Python / numpy `round`: round half to even, to an integer. -/
def roundHalfEven (q : ℚ) : ℤ :=
  let f := ⌊q⌋
  let frac := q - (f : ℚ)
  if frac < 1/2 then f
  else if 1/2 < frac then f + 1
  else if f % 2 = 0 then f else f + 1

/-- Python `round(q, p)` / `Series.round(p)`: round half to even at `p` decimals. -/
def roundTo (p : ℕ) (q : ℚ) : ℚ := (roundHalfEven (q * 10 ^ p) : ℚ) / 10 ^ p

/-- The decimal digit `d` (`0 ≤ d ≤ 9`) as a character. -/
def digChar (d : ℕ) : Char :=
  match d with
  | 0 => '0' | 1 => '1' | 2 => '2' | 3 => '3' | 4 => '4'
  | 5 => '5' | 6 => '6' | 7 => '7' | 8 => '8' | _ => '9'

/-- Numeric value of a decimal digit character. -/
def digVal (c : Char) : ℕ := c.toNat - 48

/-- Little-endian base-10 digits, structurally recursive on a fuel bound so
    that concrete values reduce inside the kernel. -/
def natDigitsAux : ℕ → ℕ → List ℕ
  | 0, _ => []
  | fuel + 1, n => if n = 0 then [] else n % 10 :: natDigitsAux fuel (n / 10)

/-- Little-endian base-10 digits of `n` (empty for `0`). -/
def natDigits10 (n : ℕ) : List ℕ := natDigitsAux n n

/-- Decimal digit characters of `n`, most significant first (empty for `0`). -/
def natToChars (n : ℕ) : List Char := ((natDigits10 n).map digChar).reverse

/-- Decimal digit characters of `n`, printing `0` as `"0"`. -/
def natToCharsNZ (n : ℕ) : List Char := if n = 0 then ['0'] else natToChars n

/-- Parse a list of decimal digit characters (most significant first). -/
def charsToNat (cs : List Char) : ℕ := Nat.ofDigits 10 (cs.reverse.map digVal)

/-- Left-pad with `'0'` to length `p`. -/
def padZeros (p : ℕ) (l : List Char) : List Char :=
  List.replicate (p - l.length) '0' ++ l

/-- Insert `','` after every 3 characters of a reversed digit list;
    `k` counts characters remaining before the next separator. -/
def commaRev : List Char → ℕ → List Char
  | [], _ => []
  | c :: cs, k => if k = 0 then ',' :: c :: commaRev cs 2 else c :: commaRev cs (k - 1)

/-- Python `{:,}` thousands grouping of a digit string. -/
def groupCommas (cs : List Char) : List Char := (commaRev cs.reverse 3).reverse

/-- Characters kept by the app's `str.replace('$','').str.replace(',','')`. -/
def keepCh (c : Char) : Bool := c != '$' && c != ','

/-- Strip the currency symbol and thousands separators, as the app does before
    `astype(float)`. -/
def stripMoney (cs : List Char) : List Char := cs.filter keepCh

/-- Split a character list at the first `'.'`. -/
def splitDot : List Char → List Char × List Char
  | [] => ([], [])
  | c :: cs => if c = '.' then ([], cs) else
      let p := splitDot cs
      (c :: p.1, p.2)

/-- Value of an unsigned decimal string `intpart.fracpart`. -/
def parseDecAux (cs : List Char) : ℚ :=
  let p := splitDot cs
  (charsToNat p.1 : ℚ) + (charsToNat p.2 : ℚ) / 10 ^ p.2.length

/-- Parse a decimal string (optional leading minus) to a rational, modelling
    `astype(float)` on the stripped strings the pipeline produces. -/
def parseDec (cs : List Char) : ℚ :=
  if cs.head? = some '-' then -(parseDecAux cs.tail) else parseDecAux cs

/-- Python fixed-point formatting `f"{q:.pf}"` (no thousands separators). -/
def formatFixed (p : ℕ) (q : ℚ) : String :=
  let n := roundHalfEven (q * 10 ^ p)
  String.mk ((if n < 0 then ['-'] else []) ++ natToCharsNZ (n.natAbs / 10 ^ p) ++
    '.' :: padZeros p (natToChars (n.natAbs % 10 ^ p)))

/-- Python currency formatting `"${:,.pf}".format(q)`: dollar sign, comma
    thousands grouping, `p` decimals. -/
def formatCurrency (p : ℕ) (q : ℚ) : String :=
  let n := roundHalfEven (q * 10 ^ p)
  String.mk ('$' :: ((if n < 0 then ['-'] else []) ++
    groupCommas (natToCharsNZ (n.natAbs / 10 ^ p)) ++
    '.' :: padZeros p (natToChars (n.natAbs % 10 ^ p))))

/-- Rendering of an already-rounded rational the way a Python f-string prints
    the corresponding float (`f"{x}"`); only used inside percent strings,
    where the value has at most two decimals. -/
def pyRepr (q : ℚ) : String :=
  if q.den = 1 then formatFixed 1 q
  else if (q * 10).den = 1 then formatFixed 1 q
  else formatFixed 2 q

/-- Python `str.upper()` (ASCII), over the character list so that concrete
    reports evaluate inside the kernel. -/
def pyUpper (s : String) : String := String.mk (s.data.map Char.toUpper)

/-- Python `s[:n]` slicing, over the character list. -/
def pyTake (s : String) (n : ℕ) : String := String.mk (s.data.take n)

/-- Maximal run of ASCII uppercase letters at the head (greedy `[A-Z]+`). -/
def upperRun : List Char → List Char × List Char
  | [] => ([], [])
  | c :: cs =>
      if c.isUpper then
        let p := upperRun cs
        (c :: p.1, p.2)
      else ([], c :: cs)

/-- Maximal run of ASCII digits at the head (greedy `\d+`). -/
def digitRun : List Char → List Char × List Char
  | [] => ([], [])
  | c :: cs =>
      if c.isDigit then
        let p := digitRun cs
        (c :: p.1, p.2)
      else ([], c :: cs)

/-- Match `[A-Z]+-\d+` anchored at the head of the list. -/
def matchPlusAt (cs : List Char) : Option (List Char) :=
  let u := upperRun cs
  if u.1.isEmpty then none
  else
    match u.2 with
    | '-' :: rest =>
        let d := digitRun rest
        if d.1.isEmpty then none else some (u.1 ++ '-' :: d.1)
    | _ => none

/-- `re.search` of `([A-Z]+-\d+)`: leftmost match anywhere in the string. -/
def searchPlus : List Char → Option (List Char)
  | [] => none
  | c :: cs =>
      match matchPlusAt (c :: cs) with
      | some m => some m
      | none => searchPlus cs

/-- `Series.str.extract(r'([A-Z]+-\d+)')` on one value (the division
    aggregator's course-code re-extraction, line 159). -/
def extractPlus (s : String) : Option String := (searchPlus s.data).map String.mk

/-- Match `[A-Z]{3}-\d{3}` anchored at the head of the list. -/
def match33At : List Char → Option (List Char)
  | a :: b :: c :: d :: e :: f :: g :: _ =>
      if a.isUpper && b.isUpper && c.isUpper && d == '-' &&
         e.isDigit && f.isDigit && g.isDigit then
        some [a, b, c, d, e, f, g]
      else none
  | _ => none

/-- `re.search` of `([A-Z]{3}-\d{3})`: leftmost match anywhere in the string. -/
def search33 : List Char → Option (List Char)
  | [] => none
  | c :: cs =>
      match match33At (c :: cs) with
      | some m => some m
      | none => search33 cs

/-- `Series.str.extract(r"([A-Z]{3}-\d{3})")` on one value (the merger's
    course-code derivation, lines 57-62). -/
def extract33 (s : String) : Option String := (search33 s.data).map String.mk

/-- A spreadsheet cell of the report tables: the Python row dicts mix empty
    strings, missing values (`NaN`), numbers and strings in one column. -/
inductive Cell where
  | blank : Cell
  | na : Cell
  | num : ℚ → Cell
  | str : String → Cell
deriving DecidableEq, Repr

/-- A possibly-missing string as a cell. -/
def cellOfStr : Option String → Cell
  | none => Cell.na
  | some s => Cell.str s

/-- A possibly-missing number as a cell. -/
def cellOfQ : Option ℚ → Cell
  | none => Cell.na
  | some q => Cell.num q

/-- One row of the raw uploaded `deanDailyCsar` dataset.  Numeric fields are
    given post-`to_numeric(errors='coerce')`: a number or missing. -/
structure RawRow where
  secName : Option String
  secDivisions : Option String
  xSecDeliveryMethod : Option String
  meetingTimes : Option String
  capacity : Option ℚ
  fteCount : Option ℚ
  secFacultyInfo : Option String
deriving DecidableEq

/-- One row of the `unique_deansDailyCsar_FTE.xlsx` reference table. -/
structure FteRefRow where
  secName : Option String
  contactHours : Option ℚ
deriving DecidableEq

/-- One row of the merged dean dataset (output of `readfile`). -/
structure Row where
  secName : Option String
  secDivisions : Option String
  xSecDeliveryMethod : Option String
  meetingTimes : Option String
  capacity : Option ℚ
  fteCount : Option ℚ
  secFacultyInfo : Option String
  contactHours : Option ℚ
  courseCode : Option String
  totalFte : Option ℚ
deriving DecidableEq

/-- One row of the `FTE_Tier.xlsx` table. -/
structure TierRow where
  prefixCourseId : Option String
  newSector : ℚ
deriving DecidableEq

/-- The `fte_lookup` dict built from the tier table (null keys skipped, later
    duplicate keys overwrite earlier ones) together with `.get(key, 0)`. -/
def fteLookup (fte_tier : List TierRow) (k : String) : ℚ :=
  match fte_tier.reverse.find? (fun t => t.prefixCourseId == some k) with
  | some t => t.newSector
  | none => 0

/-- Python `<` on strings: strict lexicographic comparison of code points
    (structural so that concrete reports evaluate inside the kernel). -/
def charsLtb : List Char → List Char → Bool
  | [], [] => false
  | [], _ :: _ => true
  | _ :: _, [] => false
  | a :: as, b :: bs => if a = b then charsLtb as bs else decide (a < b)

/-- Strict comparison of possibly-missing sort keys: pandas `sort_values`
    puts missing keys after every present key; missing keys tie. -/
def keyLtb : Option String → Option String → Bool
  | none, _ => false
  | some _, none => true
  | some a, some b => charsLtb a.data b.data

/-- Non-strict key comparison (tied or smaller). -/
def keyLeb (a b : Option String) : Bool := !(keyLtb b a)

/-- The `sort_values(['Course Code', 'Sec Name'])` order of the division
    aggregator (line 160): lexicographic, missing keys last. -/
def divSortLe (r s : Row) : Bool :=
  keyLtb r.courseCode s.courseCode ||
    (r.courseCode == s.courseCode && keyLeb r.secName s.secName)

/-- `divSortLe` as a relation, for the stable sort. -/
def divSortRel (r s : Row) : Prop := divSortLe r s = true

instance : DecidableRel divSortRel := fun r s => by unfold divSortRel; infer_instance

/-- The `sort_values(['Sec Divisions', 'Sec Name', 'Sec Faculty Info'])` order
    of the merger (line 81). -/
def deanSortLe (r s : Row) : Bool :=
  keyLtb r.secDivisions s.secDivisions ||
    (r.secDivisions == s.secDivisions &&
      (keyLtb r.secName s.secName ||
        (r.secName == s.secName && keyLeb r.secFacultyInfo s.secFacultyInfo)))

/-- `deanSortLe` as a relation, for the stable sort. -/
def deanSortRel (r s : Row) : Prop := deanSortLe r s = true

instance : DecidableRel deanSortRel := fun r s => by unfold deanSortRel; infer_instance

/-- One merged output row of the `readfile` join: the raw row's fields plus
    the joined `Contact Hours` and the derived `Course Code` and `Total FTE`
    (`round(Contact Hours * 16 * FTE Count / 512, 3)`, lines 72-77; missing
    if either operand is missing). -/
def mkMergedRow (r : RawRow) (code : Option String) (ch : Option ℚ) : Row :=
  { secName := r.secName, secDivisions := r.secDivisions,
    xSecDeliveryMethod := r.xSecDeliveryMethod, meetingTimes := r.meetingTimes,
    capacity := r.capacity, fteCount := r.fteCount,
    secFacultyInfo := r.secFacultyInfo, contactHours := ch, courseCode := code,
    totalFte := match ch, r.fteCount with
      | some c, some f => some (roundTo 3 (c * 16 * f / 512))
      | _, _ => none }

/-- The pure merge/compute core of `readfile` (lines 57-83): derive
    `Course Code` from `Sec Name` on both tables, left-join `Contact Hours`
    on `Course Code` (missing keys never join; every matching reference row
    produces an output row, unmatched rows keep `Contact Hours` missing),
    compute `Total FTE` per `mkMergedRow`, and stable-sort by
    `(Sec Divisions, Sec Name, Sec Faculty Info)`.  The file I/O and the
    branch for an input that already has a `Course Code` column are outside
    this model. -/
def readfile (file_in : List RawRow) (fte_file_in : List FteRefRow) : List Row :=
  let fteWithCode := fte_file_in.map (fun r => (r.secName.bind extract33, r.contactHours))
  let merged := file_in.flatMap (fun r =>
    let code := r.secName.bind extract33
    let hits := fteWithCode.filter (fun p => code.isSome && p.1 == code)
    let chs : List (Option ℚ) := if hits.isEmpty then [none] else hits.map (·.2)
    chs.map (mkMergedRow r code))
  List.insertionSort deanSortRel merged

/-- `calc_enrollment` (lines 91-118): per-row enrollment percentage with the
    zero-capacity-returns-"0%" convention.  `float()` of a pandas-missing
    value is `nan`, which propagates to the rendered string rather than
    raising, so a missing operand yields `"nan%"`. -/
def calc_enrollment (capacity fteCount : Option ℚ) : String :=
  match capacity, fteCount with
  | some c, some f =>
      if c = 0 then "0%" else formatFixed 2 (f / c * 100) ++ "%"
  | _, _ => "nan%"

/-- Python `course != current_course` where both sides may be missing:
    `NaN` compares unequal to everything, including `NaN` and `None`. -/
def courseNe (course : Option String) (cur : Option String) : Bool :=
  match course, cur with
  | none, _ => true
  | some _, none => true
  | some a, some b => a != b

/-- The division view's inline enrollment percentage (lines 182-184 and 213):
    a value only when capacity and FTE count are present and capacity is
    positive, otherwise blank; rendered `f"{enrollment_per}%"`. -/
def enrollmentCellDiv (r : Row) : Cell :=
  match r.capacity, r.fteCount with
  | some c, some f =>
      if 0 < c then Cell.str (pyRepr (roundTo 2 (f / c * 100)) ++ "%") else Cell.blank
  | _, _ => Cell.blank

/-- A division-report row (the dict shape of `fte_by_div_raw`'s output). -/
structure DivRow where
  division : Cell
  courseCode : Cell
  secName : Cell
  xSecDeliveryMethod : Cell
  meetingTimes : Cell
  capacity : Cell
  fteCount : Cell
  secFacultyInfo : Cell
  totalFte : Cell
  enrollmentPer : Cell
  generatedFte : Cell
deriving DecidableEq

/-- The `'Total'` course-subtotal row of the division view (lines 187-199
    and 223-235): all display fields blank, `Generated FTE` numeric. -/
def totalRow (t : ℚ) : DivRow :=
  { division := Cell.blank, courseCode := Cell.str "Total", secName := Cell.blank,
    xSecDeliveryMethod := Cell.blank, meetingTimes := Cell.blank,
    capacity := Cell.blank, fteCount := Cell.blank, secFacultyInfo := Cell.blank,
    totalFte := Cell.blank, enrollmentPer := Cell.blank, generatedFte := Cell.num t }

/-- A section row of the division view (lines 203-215): note `Generated FTE`
    is stored as the plain string `f"{adjusted_fte:.2f}"`. -/
def sectionRowDiv (dc : String) (firstRow showCourse : Bool) (r : Row) (tf adj : ℚ) : DivRow :=
  { division := if firstRow then Cell.str dc else Cell.blank,
    courseCode := if showCourse then cellOfStr r.courseCode else Cell.blank,
    secName := cellOfStr r.secName,
    xSecDeliveryMethod := cellOfStr r.xSecDeliveryMethod,
    meetingTimes := cellOfStr r.meetingTimes,
    capacity := cellOfQ r.capacity,
    fteCount := cellOfQ r.fteCount,
    secFacultyInfo := cellOfStr r.secFacultyInfo,
    totalFte := Cell.num tf,
    enrollmentPer := enrollmentCellDiv r,
    generatedFte := Cell.str (formatFixed 2 adj) }

/-- Loop state of `fte_by_div_raw` (lines 165-170): `cur` is Python's
    `current_course` (`none` = still `None`, `some none` = a `NaN` course,
    `some (some c)` = course string `c`). -/
structure DivState where
  cur : Option (Option String)
  courseTotal : ℚ
  firstRow : Bool
  grandOrig : ℚ
  grandGen : ℚ
deriving DecidableEq

/-- The initial loop state. -/
def divInit : DivState :=
  { cur := none, courseTotal := 0, firstRow := true, grandOrig := 0, grandGen := 0 }

/-- The row loop of `fte_by_div_raw` (lines 172-236), including the final
    course-total flush: returns the emitted rows and the two grand totals. -/
def divLoop (lookup : String → ℚ) (dc : String) : List Row → DivState → List DivRow × ℚ × ℚ
  | [], st =>
      match st.cur with
      | some _ => ([totalRow st.courseTotal], st.grandOrig, st.grandGen + st.courseTotal)
      | none => ([], st.grandOrig, st.grandGen)
  | r :: rest, st =>
      let sec := match r.secName with
        | some s => pyTake s 3
        | none => ""
      let tf := r.totalFte.getD 0
      let adj := tf * (lookup sec + 1926)
      let boundary := match st.cur with
        | none => false
        | some c => courseNe r.courseCode c
      let showCourse := match st.cur with
        | none => true
        | some c => courseNe r.courseCode c
      let srow := sectionRowDiv dc st.firstRow showCourse r tf adj
      let emitted := if boundary then [totalRow st.courseTotal, srow] else [srow]
      let st' : DivState :=
        { cur := some r.courseCode,
          courseTotal := (if boundary then 0 else st.courseTotal) + adj,
          firstRow := false,
          grandOrig := st.grandOrig + tf,
          grandGen := if boundary then st.grandGen + st.courseTotal else st.grandGen }
      let rec2 := divLoop lookup dc rest st'
      (emitted ++ rec2.1, rec2.2)

/-- Filter, defensive course-code re-extraction and stable sort of
    `fte_by_div_raw` (lines 145-160), for the already-uppercased key. -/
def divPrepared (file_in : List Row) (dc : String) : List Row :=
  List.insertionSort divSortRel
    ((file_in.filter (fun r => r.secDivisions == some dc)).map
      (fun r => { r with courseCode := r.secName.bind extractPlus }))

/-- `fte_by_div_raw` (lines 121-239): filter the division (only the key is
    uppercased), return the no-data signal `(None, 0, 0)` on an empty match,
    otherwise run the grouping loop over the re-coded, sorted rows. -/
def fte_by_div_raw (file_in : List Row) (fte_tier : List TierRow) (div_code : String) :
    Option (List DivRow) × ℚ × ℚ :=
  let dc := pyUpper div_code
  if (file_in.filter (fun r => r.secDivisions == some dc)).isEmpty then (none, 0, 0)
  else
    let res := divLoop (fteLookup fte_tier) dc (divPrepared file_in dc) divInit
    (some res.1, res.2)

/-- `format_fte_output` (lines 242-285): currency-format (3 decimals) every
    numeric `Generated FTE` (only the subtotal rows are numeric; section rows
    already hold strings) and append the `DIVISION TOTAL` row at 2 decimals.
    `original_fte_total` is accepted and unused, as in the source. -/
def format_fte_output (raw_df : List DivRow) (original_fte_total generated_fte_total : ℚ) :
    List DivRow :=
  (raw_df.map (fun r =>
    match r.generatedFte with
    | Cell.num q => { r with generatedFte := Cell.str (formatCurrency 3 q) }
    | _ => r)) ++
  [{ division := Cell.blank, courseCode := Cell.str "DIVISION TOTAL",
     secName := Cell.blank, xSecDeliveryMethod := Cell.blank,
     meetingTimes := Cell.blank, capacity := Cell.blank, fteCount := Cell.blank,
     secFacultyInfo := Cell.blank, totalFte := Cell.blank,
     enrollmentPer := Cell.blank,
     generatedFte := Cell.str (formatCurrency 2 generated_fte_total) }]

/-- A course-report row (the dict shape of `calculate_fte_by_course`'s
    output, lines 343-366). -/
structure CourseRow where
  secName : Cell
  xSecDeliveryMethod : Cell
  secFacultyInfo : Cell
  meetingTimes : Cell
  capacity : Cell
  fteCount : Cell
  totalFte : Cell
  enrollmentPer : Cell
  generatedFte : Cell
deriving DecidableEq

/-- The course view's inline enrollment percentage (lines 339-341 and 351):
    like the division view's, but rendered through Python truthiness
    (`if enrollment_per`), so a computed `0` percentage also displays blank. -/
def enrollmentCellCourse (r : Row) : Cell :=
  match r.capacity, r.fteCount with
  | some c, some f =>
      if 0 < c then
        if roundTo 2 (f / c * 100) = 0 then Cell.blank
        else Cell.str (pyRepr (roundTo 2 (f / c * 100)) ++ "%")
      else Cell.blank
  | _, _ => Cell.blank

/-- A section row of the course view (lines 343-353): `Generated FTE` is kept
    numeric here and currency-formatted in a final pass. -/
def courseSectionRow (r : Row) (tf gen : ℚ) : CourseRow :=
  { secName := cellOfStr r.secName,
    xSecDeliveryMethod := cellOfStr r.xSecDeliveryMethod,
    secFacultyInfo := cellOfStr r.secFacultyInfo,
    meetingTimes := cellOfStr r.meetingTimes,
    capacity := cellOfQ r.capacity,
    fteCount := cellOfQ r.fteCount,
    totalFte := Cell.num tf,
    enrollmentPer := enrollmentCellCourse r,
    generatedFte := Cell.num gen }

/-- The `COURSE TOTAL` summary row (lines 356-366). -/
def courseTotalRow (o g : ℚ) : CourseRow :=
  { secName := Cell.str "COURSE TOTAL", xSecDeliveryMethod := Cell.blank,
    secFacultyInfo := Cell.blank, meetingTimes := Cell.blank,
    capacity := Cell.blank, fteCount := Cell.blank, totalFte := Cell.num o,
    enrollmentPer := Cell.blank, generatedFte := Cell.num g }

/-- The row loop of `calculate_fte_by_course` (lines 331-353).  Line 332
    slices `row['Sec Name'][:3]` without a missing-value guard: a missing
    `Sec Name` is a float `nan` there and raises `TypeError`. -/
def courseLoop (lookup : String → ℚ) (base : ℚ) :
    List Row → Except String (List CourseRow × ℚ × ℚ)
  | [] => Except.ok ([], 0, 0)
  | r :: rest =>
      match r.secName with
      | none => Except.error "TypeError: float object is not subscriptable"
      | some sn =>
          let tf := r.totalFte.getD 0
          let gen := tf * (lookup (pyTake sn 3) + base)
          match courseLoop lookup base rest with
          | Except.error e => Except.error e
          | Except.ok (rows, o, g) =>
              Except.ok (courseSectionRow r tf gen :: rows, tf + o, gen + g)

/-- `drop_duplicates(subset='Sec Name')`: keep the first row for each
    `Sec Name`; pandas treats missing values as duplicates of each other. -/
def dedupGo (seen : List (Option String)) : List Row → List Row
  | [] => []
  | r :: rest =>
      if seen.contains r.secName then dedupGo seen rest
      else r :: dedupGo (r.secName :: seen) rest

/-- `drop_duplicates(subset='Sec Name')` on a whole table. -/
def dedupBySecName (l : List Row) : List Row := dedupGo [] l

/-- `calculate_fte_by_course` (lines 288-371): exact filter on the uppercased
    course code, de-duplicate by `Sec Name`, no-data signal `(None, 0, 0)` on
    an empty match, per-row generated FTE via the 3-character `Sec Name`
    prefix lookup, `COURSE TOTAL` summary row, and a final pass formatting
    every numeric `Generated FTE` as `${:,.2f}`. -/
def calculate_fte_by_course (df : List Row) (fte_tier : List TierRow)
    (course_code : String) (base_fte : ℚ := 1926) :
    Except String (Option (List CourseRow) × ℚ × ℚ) :=
  let cc := pyUpper course_code
  let filtered := dedupBySecName (df.filter (fun r => r.courseCode == some cc))
  if filtered.isEmpty then Except.ok (none, 0, 0)
  else
    match courseLoop (fteLookup fte_tier) base_fte filtered with
    | Except.error e => Except.error e
    | Except.ok (rows, o, g) =>
        Except.ok (some ((rows ++ [courseTotalRow o g]).map (fun r =>
          match r.generatedFte with
          | Cell.num q => { r with generatedFte := Cell.str (formatCurrency 2 q) }
          | _ => r)), o, g)

/-- A faculty-report row: all columns of the merged dataset plus
    `Enrollment Per` and `Generated FTE` (`generate_faculty_fte_report`). -/
structure FacRow where
  secName : Cell
  secDivisions : Cell
  xSecDeliveryMethod : Cell
  meetingTimes : Cell
  capacity : Cell
  fteCount : Cell
  secFacultyInfo : Cell
  contactHours : Cell
  courseCode : Cell
  totalFte : Cell
  enrollmentPer : Cell
  generatedFte : Cell
deriving DecidableEq

/-- Modelled from the spec: `options4.remove_duplicate_sections` is not in
    the sources; the spec says the instructor view "remove[s] duplicate
    sections (by `sectionName`)", first occurrence kept. -/
def remove_duplicate_sections (l : List Row) : List Row := dedupBySecName l

/-- Modelled from the spec: `options4.calculate_enrollment_percentage` is not
    in the sources; the spec says the instructor view computes the per-row
    enrollment percentage "with the zero-capacity-returns-\x220%\x22
    convention", i.e. the convention of `calc_enrollment`. -/
def calculate_enrollment_percentage (fteCount capacity : Option ℚ) : String :=
  calc_enrollment capacity fteCount

/-- Modelled from the spec: `options4.generate_fte` is not in the sources;
    the spec says the instructor view "compute[s] `generatedFte` via the
    3-char prefix lookup" with `generatedFte = totalFte * (multiplier + 1926)`,
    a missing `sectionName` treated as a lookup miss (`0`) and a missing
    `totalFte` contributing `0`.  Returns each row with its generated FTE. -/
def generate_fte (l : List Row) (fte_tier : List TierRow) : List (Row × ℚ) :=
  l.map (fun r =>
    (r, r.totalFte.getD 0 *
      (fteLookup fte_tier (match r.secName with
        | some s => pyTake s 3
        | none => "") + 1926)))

/-- A section row of the faculty report: original columns kept, enrollment
    percentage string, `Generated FTE` currency-formatted (line 414). -/
def facSectionRow (r : Row) (enr gen : String) : FacRow :=
  { secName := cellOfStr r.secName,
    secDivisions := cellOfStr r.secDivisions,
    xSecDeliveryMethod := cellOfStr r.xSecDeliveryMethod,
    meetingTimes := cellOfStr r.meetingTimes,
    capacity := cellOfQ r.capacity,
    fteCount := cellOfQ r.fteCount,
    secFacultyInfo := cellOfStr r.secFacultyInfo,
    contactHours := cellOfQ r.contactHours,
    courseCode := cellOfStr r.courseCode,
    totalFte := cellOfQ r.totalFte,
    enrollmentPer := Cell.str enr,
    generatedFte := Cell.str gen }

/-- The `TOTAL` summary row (lines 416-420): a Series with only three fields;
    `pd.concat` fills every other column with missing values. -/
def facTotalRow (o : ℚ) (g : String) : FacRow :=
  { secName := Cell.str "TOTAL", secDivisions := Cell.na,
    xSecDeliveryMethod := Cell.na, meetingTimes := Cell.na, capacity := Cell.na,
    fteCount := Cell.na, secFacultyInfo := Cell.na, contactHours := Cell.na,
    courseCode := Cell.na, totalFte := Cell.num o, enrollmentPer := Cell.na,
    generatedFte := Cell.str g }

/-- `generate_faculty_fte_report` (lines 374-422): exact faculty filter,
    de-duplication, enrollment percentage, generated FTE, column sums
    (pandas `.sum()` skips missing values), currency formatting, and the
    appended `TOTAL` summary row.  Unlike the other two views there is no
    empty-match check: an empty filter still yields the summary row. -/
def generate_faculty_fte_report (dean_df : List Row) (fte_tier : List TierRow)
    (faculty_name : String) : List FacRow × ℚ × ℚ :=
  let faculty_df :=
    remove_duplicate_sections (dean_df.filter (fun r => r.secFacultyInfo == some faculty_name))
  let withGen := generate_fte faculty_df fte_tier
  let total_original := (faculty_df.map (fun r => r.totalFte.getD 0)).sum
  let total_generated := (withGen.map (fun p => p.2)).sum
  let rows := withGen.map (fun p =>
    facSectionRow p.1 (calculate_enrollment_percentage p.1.fteCount p.1.capacity)
      (formatCurrency 2 p.2))
  (rows ++ [facTotalRow total_original (formatCurrency 2 total_generated)],
    total_original, total_generated)

/-- The numeric payload of a cell, if any. -/
def cellToNum : Cell → Option ℚ
  | Cell.num q => some q
  | _ => none

/-- Read a generated-FTE cell back as a number, parsing formatted strings the
    way the app does (`strip` then `astype(float)`). -/
def cellParse : Cell → Option ℚ
  | Cell.num q => some q
  | Cell.str s => some (parseDec (stripMoney s.data))
  | _ => none

/-- The numeric `Generated FTE` values carried by the `'Total'` subtotal rows
    of a division report. -/
def subtotalGens (rows : List DivRow) : List ℚ :=
  rows.filterMap (fun r => if r.courseCode = Cell.str "Total" then cellToNum r.generatedFte else none)

/-- Every row with a missing (`NaN`) course-code cell is immediately followed
    by a `'Total'` subtotal row (and no such row is last). -/
def naFollowed : List DivRow → Prop
  | [] => True
  | [r] => r.courseCode ≠ Cell.na
  | r :: r' :: rest =>
      (r.courseCode = Cell.na → r'.courseCode = Cell.str "Total") ∧ naFollowed (r' :: rest)

/-- Concrete-row builder for the claim scenarios (merged-dataset rows). -/
def mkRow (sn dv : Option String) (cap fte : Option ℚ) (fa cc : Option String)
    (tf : Option ℚ) : Row :=
  { secName := sn, secDivisions := dv, xSecDeliveryMethod := none,
    meetingTimes := none, capacity := cap, fteCount := fte, secFacultyInfo := fa,
    contactHours := none, courseCode := cc, totalFte := tf }

/-- Scenario S1 raw input row. -/
def s1dean : List RawRow :=
  [{ secName := some "ABC-101-01", secDivisions := some "SCI",
     xSecDeliveryMethod := some "WEB", meetingTimes := some "MW 9:00",
     capacity := some 30, fteCount := some 15, secFacultyInfo := some "Smith, A" }]

/-- Scenario S1 contact-hours reference table. -/
def s1ref : List FteRefRow := [{ secName := some "ABC-101-01", contactHours := some 3 }]

/-- Scenario S1 tier table (`{ABC: 74}`). -/
def s1tier : List TierRow := [{ prefixCourseId := some "ABC", newSector := 74 }]

/-- Scenario S1 division report (raw). -/
def s1out : Option (List DivRow) × ℚ × ℚ :=
  fte_by_div_raw (readfile s1dean s1ref) s1tier "SCI"

/-- Scenario S1 raw report rows. -/
def s1rows : List DivRow := s1out.1.getD []

/-- Scenario S1 formatted report. -/
def s1form : List DivRow := format_fte_output s1rows s1out.2.1 s1out.2.2

/-- A division row whose generated FTE has three significant decimals
    (`0.001 * 1926 = 1.926`). -/
def c4row : Row := mkRow (some "ABC-101-01") (some "SCI") none none none none (some (1/1000))

/-- Division report over `c4row`. -/
def c4out : Option (List DivRow) × ℚ × ℚ := fte_by_div_raw [c4row] [] "SCI"

/-- Formatted division report over `c4row`. -/
def c4form : List DivRow := format_fte_output (c4out.1.getD []) c4out.2.1 c4out.2.2

/-- A row whose stored division code is lower-case. -/
def c6row : Row := mkRow (some "ABC-101-01") (some "sci") none none none none (some 1)

/-- A row whose section name matches `[A-Z]+-\d+` but not `[A-Z]{3}-\d{3}`. -/
def c7row : Row := mkRow (some "AB-12") (some "SCI") none none none none (some 1)

/-- Raw input whose section name matches neither pattern fully: merger side. -/
def c7raws : List RawRow :=
  [{ secName := some "ABC-123-01", secDivisions := some "SCI",
     xSecDeliveryMethod := none, meetingTimes := none, capacity := some 10,
     fteCount := some 5, secFacultyInfo := some "Smith, A" }]

/-- Reference table for the merger-side C7 witness. -/
def c7refs : List FteRefRow := [{ secName := some "ABC-123-90", contactHours := some 4 }]

/-- The single merged row of `readfile c7raws c7refs`. -/
def c7merged : Row := (readfile c7raws c7refs).headD (mkRow none none none none none none none)

/-- A row with a missing `Sec Name` but a present `Course Code` (possible when
    the uploaded file already carries a `Course Code` column). -/
def c8row : Row := mkRow none (some "SCI") (some 10) (some 5) (some "Smith, A")
  (some "ENG-111") (some 1)

/-- A zero-capacity section row for the course view. -/
def c9row : Row := mkRow (some "ENG-111-01") (some "SCI") (some 0) (some 5)
  (some "Smith, A") (some "ENG-111") (some 1)

/-- The course-view report rows over `c9row`. -/
def c9out : List CourseRow :=
  match calculate_fte_by_course [c9row] [] "ENG-111" with
  | Except.ok (some rows, _, _) => rows
  | _ => []

/-- A zero-capacity row taught by a named instructor, for the instructor view. -/
def c9irow : Row := mkRow (some "ENG-111-01") (some "SCI") (some 0) (some 5)
  (some "Jones, B") (some "ENG-111") (some 1)

/-- A single-row dataset whose only instructor is `Smith, A`. -/
def c5df : List Row :=
  [mkRow (some "ABC-101-01") (some "SCI") (some 10) (some 5) (some "Smith, A")
    (some "ABC-101") (some 1)]

/-- Course-view witness data: two sections of `ENG-111`. -/
def c3df : List Row :=
  [mkRow (some "ENG-111-01") (some "SCI") (some 10) (some 5) (some "Smith, A")
    (some "ENG-111") (some (703/500)),
   mkRow (some "ENG-111-02") (some "SCI") (some 10) (some 5) (some "Smith, A")
    (some "ENG-111") none]

/-- The course-view result over `c3df`. -/
def c3x : Option (List CourseRow) × ℚ × ℚ :=
  (calculate_fte_by_course c3df [] "ENG-111").toOption.getD (none, 0, 0)

/-- Division data with one row whose re-extracted course code is missing
    (`"XYZ"` has no dash) and one with a present code. -/
def c10file : List Row :=
  [mkRow (some "XYZ") (some "SCI") (some 10) (some 5) (some "Smith, A") none (some 1),
   mkRow (some "MATH-101-01") (some "SCI") (some 20) (some 10) (some "Smith, A")
     none (some 2)]

/-- The division report over `c10file`. -/
def c10res : Option (List DivRow) × ℚ × ℚ := fte_by_div_raw c10file [] "SCI"

/-- Its rows. -/
def c10rows : List DivRow := c10res.1.getD []

/-- The last row of the instructor report over `c5df` for `Smith, A`. -/
def c2frow : FacRow :=
  ((generate_faculty_fte_report c5df [] "Smith, A").1.getLast?).getD (facTotalRow 0 "")

theorem digVal_digChar {d : ℕ} (h : d < 10) : digVal (digChar d) = d := by
  interval_cases d <;> decide

theorem keepCh_digChar (d : ℕ) : keepCh (digChar d) = true := by
  unfold digChar; split <;> decide

theorem digChar_ne_dot (d : ℕ) : digChar d ≠ '.' := by
  unfold digChar; split <;> decide

theorem digChar_ne_dash (d : ℕ) : digChar d ≠ '-' := by
  unfold digChar; split <;> decide

theorem natDigitsAux_eq : ∀ (fuel n : ℕ), n ≤ fuel → natDigitsAux fuel n = Nat.digits 10 n := by
  intro fuel
  induction fuel with
  | zero =>
      intro n hn
      have : n = 0 := Nat.le_zero.1 hn
      subst this
      simp [natDigitsAux, Nat.digits_zero]
  | succ fuel ih =>
      intro n hn
      unfold natDigitsAux
      by_cases h0 : n = 0
      · subst h0; simp [Nat.digits_zero]
      · rw [if_neg h0]
        rw [ih (n / 10) (by
          have := Nat.div_lt_self (Nat.pos_of_ne_zero h0) (by norm_num : 1 < 10)
          omega)]
        rw [Nat.digits_def' (by norm_num : 1 < 10) (Nat.pos_of_ne_zero h0)]

theorem natDigits10_eq (n : ℕ) : natDigits10 n = Nat.digits 10 n :=
  natDigitsAux_eq n n le_rfl

theorem mem_natToChars {c : Char} {m : ℕ} (h : c ∈ natToChars m) : ∃ d, d < 10 ∧ c = digChar d := by
  unfold natToChars at h
  rw [natDigits10_eq] at h
  rw [List.mem_reverse, List.mem_map] at h
  obtain ⟨d, hd, rfl⟩ := h
  exact ⟨d, Nat.digits_lt_base (by norm_num) hd, rfl⟩

theorem mem_natToCharsNZ {c : Char} {m : ℕ} (h : c ∈ natToCharsNZ m) : ∃ d, d < 10 ∧ c = digChar d := by
  unfold natToCharsNZ at h
  split at h
  · simp at h; exact ⟨0, by norm_num, h⟩
  · exact mem_natToChars h

theorem charsToNat_natToChars (n : ℕ) : charsToNat (natToChars n) = n := by
  unfold charsToNat natToChars
  rw [natDigits10_eq, List.reverse_reverse, List.map_map]
  have h1 : (Nat.digits 10 n).map (digVal ∘ digChar) = (Nat.digits 10 n).map id :=
    List.map_congr_left (fun d hd => digVal_digChar (Nat.digits_lt_base (by norm_num) hd))
  rw [h1, List.map_id, Nat.ofDigits_digits]

theorem charsToNat_natToCharsNZ (n : ℕ) : charsToNat (natToCharsNZ n) = n := by
  unfold natToCharsNZ
  split
  · rename_i h
    subst h
    decide
  · exact charsToNat_natToChars n

theorem ofDigits_replicate_zero (k : ℕ) : Nat.ofDigits 10 (List.replicate k 0) = 0 := by
  induction k with
  | zero => simp [Nat.ofDigits]
  | succ k ih => simp [List.replicate_succ, Nat.ofDigits, ih]

theorem charsToNat_padZeros (p : ℕ) (l : List Char) :
    charsToNat (padZeros p l) = charsToNat l := by
  unfold charsToNat padZeros
  rw [List.reverse_append, List.reverse_replicate, List.map_append, List.map_replicate]
  have h0 : digVal '0' = 0 := by decide
  rw [h0, Nat.ofDigits_append, ofDigits_replicate_zero]
  simp

theorem padZeros_length {p : ℕ} {l : List Char} (h : l.length ≤ p) :
    (padZeros p l).length = p := by
  unfold padZeros
  rw [List.length_append, List.length_replicate]
  omega

theorem natToChars_len_le {m p : ℕ} (h : m < 10 ^ p) : (natToChars m).length ≤ p := by
  unfold natToChars
  rw [natDigits10_eq, List.length_reverse, List.length_map]
  rcases Nat.eq_zero_or_pos m with rfl | hm
  · simp
  · rw [Nat.digits_len 10 m (by norm_num) hm.ne']
    have := Nat.log_lt_of_lt_pow hm.ne' h
    omega

theorem commaRev_filter (cs : List Char) : ∀ k, (commaRev cs k).filter keepCh = cs.filter keepCh := by
  induction cs with
  | nil => intro k; rfl
  | cons c cs ih =>
      intro k
      unfold commaRev
      split
      · rw [List.filter_cons, List.filter_cons, List.filter_cons]
        have : keepCh ',' = false := by decide
        rw [this]
        simp only [ih, if_false, Bool.false_eq_true]
      · rw [List.filter_cons, List.filter_cons]
        simp only [ih]

theorem stripMoney_groupCommas {ds : List Char} (h : ∀ c ∈ ds, keepCh c = true) :
    List.filter keepCh (groupCommas ds) = ds := by
  unfold groupCommas
  rw [List.filter_reverse, commaRev_filter, List.filter_reverse, List.reverse_reverse,
    List.filter_eq_self.2 h]

theorem splitDot_append {a : List Char} (b : List Char) (h : '.' ∉ a) :
    splitDot (a ++ '.' :: b) = (a, b) := by
  induction a with
  | nil => simp [splitDot]
  | cons c cs ih =>
      have hc : c ≠ '.' := fun e => h (e ▸ List.mem_cons_self c cs)
      have hcs : '.' ∉ cs := fun e => h (List.mem_cons_of_mem c e)
      simp only [List.cons_append, splitDot, if_neg hc]
      rw [show cs.append ('.' :: b) = cs ++ '.' :: b from rfl, ih hcs]

theorem natToCharsNZ_ne_nil (m : ℕ) : natToCharsNZ m ≠ [] := by
  unfold natToCharsNZ
  split
  · simp
  · unfold natToChars
    rw [natDigits10_eq]
    simp only [ne_eq, List.reverse_eq_nil_iff, List.map_eq_nil_iff]
    exact Nat.digits_ne_nil_iff_ne_zero.2 (by assumption)

theorem keepCh_natToCharsNZ {m : ℕ} : ∀ c ∈ natToCharsNZ m, keepCh c = true := by
  intro c hc
  obtain ⟨d, _, rfl⟩ := mem_natToCharsNZ hc
  exact keepCh_digChar d

theorem keepCh_padZeros {p m : ℕ} : ∀ c ∈ padZeros p (natToChars m), keepCh c = true := by
  intro c hc
  unfold padZeros at hc
  rcases List.mem_append.1 hc with h | h
  · rw [List.eq_of_mem_replicate h]; decide
  · obtain ⟨d, _, rfl⟩ := mem_natToChars h
    exact keepCh_digChar d

theorem dot_not_mem_natToCharsNZ {m : ℕ} : '.' ∉ natToCharsNZ m := by
  intro hmem
  obtain ⟨d, _, hd⟩ := mem_natToCharsNZ hmem
  exact digChar_ne_dot d hd.symm

theorem parse_core (m p : ℕ) :
    parseDecAux (natToCharsNZ (m / 10 ^ p) ++ '.' :: padZeros p (natToChars (m % 10 ^ p))) =
      (m : ℚ) / 10 ^ p := by
  unfold parseDecAux
  rw [splitDot_append _ dot_not_mem_natToCharsNZ]
  have hlt : m % 10 ^ p < 10 ^ p := Nat.mod_lt _ (by positivity)
  show (charsToNat (natToCharsNZ (m / 10 ^ p)) : ℚ) +
      (charsToNat (padZeros p (natToChars (m % 10 ^ p))) : ℚ) /
        10 ^ (padZeros p (natToChars (m % 10 ^ p))).length = (m : ℚ) / 10 ^ p
  rw [padZeros_length (natToChars_len_le hlt), charsToNat_padZeros, charsToNat_natToChars,
    charsToNat_natToCharsNZ]
  have h10 : ((10 : ℚ) ^ p) ≠ 0 := by positivity
  rw [eq_div_iff h10, add_mul, div_mul_cancel₀ _ h10]
  have hmod : m / 10 ^ p * 10 ^ p + m % 10 ^ p = m := by
    rw [mul_comm]; exact Nat.div_add_mod m (10 ^ p)
  exact_mod_cast hmod

theorem stripMoney_formatCurrency (p : ℕ) (q : ℚ) :
    stripMoney (formatCurrency p q).data =
      (if roundHalfEven (q * 10 ^ p) < 0 then ['-'] else []) ++
      (natToCharsNZ ((roundHalfEven (q * 10 ^ p)).natAbs / 10 ^ p) ++
      '.' :: padZeros p (natToChars ((roundHalfEven (q * 10 ^ p)).natAbs % 10 ^ p))) := by
  show List.filter keepCh ('$' :: ((if roundHalfEven (q * 10 ^ p) < 0 then ['-'] else []) ++
      groupCommas (natToCharsNZ ((roundHalfEven (q * 10 ^ p)).natAbs / 10 ^ p)) ++
      '.' :: padZeros p (natToChars ((roundHalfEven (q * 10 ^ p)).natAbs % 10 ^ p)))) = _
  rw [List.filter_cons]
  have hd : (keepCh '$' = true) = False := by decide
  simp only [hd, if_false]
  rw [List.filter_append, List.filter_append]
  rw [stripMoney_groupCommas keepCh_natToCharsNZ]
  rw [List.filter_cons]
  have hdot : keepCh '.' = true := by decide
  simp only [hdot, if_true]
  rw [List.filter_eq_self.2 keepCh_padZeros]
  by_cases hneg : roundHalfEven (q * 10 ^ p) < 0 <;>
    simp [hneg, List.append_assoc, List.filter_cons, List.filter_nil,
      show keepCh '-' = true from rfl]

theorem parse_signed (z : ℤ) (p : ℕ) :
    parseDec ((if z < 0 then ['-'] else []) ++ (natToCharsNZ (z.natAbs / 10 ^ p) ++
      '.' :: padZeros p (natToChars (z.natAbs % 10 ^ p)))) = (z : ℚ) / 10 ^ p := by
  by_cases hneg : z < 0
  · rw [if_pos hneg]
    show parseDec ('-' :: (natToCharsNZ (z.natAbs / 10 ^ p) ++
      '.' :: padZeros p (natToChars (z.natAbs % 10 ^ p)))) = _
    unfold parseDec
    rw [if_pos (show (('-' :: _ : List Char)).head? = some '-' from rfl), List.tail_cons,
      parse_core]
    have habs : ((z.natAbs : ℚ)) = -((z : ℚ)) := by
      rw [Int.cast_natAbs]
      exact_mod_cast congrArg (fun t : ℤ => (t : ℚ)) (abs_of_neg hneg)
    rw [habs, neg_div, neg_neg]
  · rw [if_neg hneg, List.nil_append]
    obtain ⟨c, l, e⟩ := List.exists_cons_of_ne_nil (natToCharsNZ_ne_nil (z.natAbs / 10 ^ p))
    have hcmem : c ∈ natToCharsNZ (z.natAbs / 10 ^ p) := by
      rw [e]; exact List.mem_cons_self c l
    obtain ⟨d, _, rfl⟩ := mem_natToCharsNZ hcmem
    rw [e, List.cons_append]
    unfold parseDec
    rw [if_neg (by simp only [List.head?_cons, Option.some.injEq]; exact digChar_ne_dash d)]
    rw [show (digChar d :: (l ++ '.' :: padZeros p (natToChars (z.natAbs % 10 ^ p)))) =
      ((digChar d :: l) ++ '.' :: padZeros p (natToChars (z.natAbs % 10 ^ p))) from rfl]
    rw [← e, parse_core]
    have habs : ((z.natAbs : ℚ)) = ((z : ℚ)) := by
      rw [Int.cast_natAbs]
      exact_mod_cast congrArg (fun t : ℤ => (t : ℚ)) (abs_of_nonneg (not_lt.1 hneg))
    rw [habs]

theorem parse_strip_formatCurrency (p : ℕ) (q : ℚ) :
    parseDec (stripMoney (formatCurrency p q).data) = roundTo p q := by
  rw [stripMoney_formatCurrency]
  unfold roundTo
  exact parse_signed _ p

theorem stripMoney_formatFixed (p : ℕ) (q : ℚ) :
    stripMoney (formatFixed p q).data =
      (if roundHalfEven (q * 10 ^ p) < 0 then ['-'] else []) ++
      (natToCharsNZ ((roundHalfEven (q * 10 ^ p)).natAbs / 10 ^ p) ++
      '.' :: padZeros p (natToChars ((roundHalfEven (q * 10 ^ p)).natAbs % 10 ^ p))) := by
  show List.filter keepCh ((if roundHalfEven (q * 10 ^ p) < 0 then ['-'] else []) ++
      natToCharsNZ ((roundHalfEven (q * 10 ^ p)).natAbs / 10 ^ p) ++
      '.' :: padZeros p (natToChars ((roundHalfEven (q * 10 ^ p)).natAbs % 10 ^ p))) = _
  rw [List.filter_append, List.filter_append]
  rw [List.filter_eq_self.2 keepCh_natToCharsNZ]
  rw [List.filter_cons]
  have hdot : keepCh '.' = true := by decide
  simp only [hdot, if_true]
  rw [List.filter_eq_self.2 keepCh_padZeros]
  by_cases hneg : roundHalfEven (q * 10 ^ p) < 0 <;>
    simp [hneg, List.append_assoc, List.filter_cons, List.filter_nil,
      show keepCh '-' = true from rfl]

theorem parse_strip_formatFixed (p : ℕ) (q : ℚ) :
    parseDec (stripMoney (formatFixed p q).data) = roundTo p q := by
  rw [stripMoney_formatFixed]
  unfold roundTo
  exact parse_signed _ p

theorem charsLtb_irrefl : ∀ a : List Char, charsLtb a a = false := by
  intro a
  induction a with
  | nil => rfl
  | cons ah a1 ih => simp [charsLtb, ih]

theorem charsLtb_trans : ∀ (a b c : List Char),
    charsLtb a b = true → charsLtb b c = true → charsLtb a c = true := by
  intro a
  induction a with
  | nil =>
      intro b c hab hbc
      cases b with
      | nil => exact hbc
      | cons bh bt =>
          cases c with
          | nil => simp [charsLtb] at hbc
          | cons ch ct => rfl
  | cons ah a1 ih =>
      intro b c hab hbc
      cases b with
      | nil => simp [charsLtb] at hab
      | cons bh bt =>
          cases c with
          | nil => simp [charsLtb] at hbc
          | cons ch ct =>
              simp only [charsLtb] at hab hbc ⊢
              by_cases h1 : ah = bh
              · subst h1
                by_cases h2 : ah = ch
                · subst h2
                  rw [if_pos rfl] at hab hbc ⊢
                  exact ih bt ct hab hbc
                · rw [if_pos rfl] at hab
                  rw [if_neg h2] at hbc ⊢
                  exact hbc
              · by_cases h2 : bh = ch
                · subst h2
                  rw [if_neg h1] at hab ⊢
                  exact hab
                · rw [if_neg h1] at hab
                  rw [if_neg h2] at hbc
                  have hlt1 : ah < bh := of_decide_eq_true hab
                  have hlt2 : bh < ch := of_decide_eq_true hbc
                  rw [if_neg (ne_of_lt (lt_trans hlt1 hlt2))]
                  exact decide_eq_true (lt_trans hlt1 hlt2)

theorem charsLtb_conn : ∀ (a b : List Char),
    charsLtb a b = true ∨ charsLtb b a = true ∨ a = b := by
  intro a
  induction a with
  | nil =>
      intro b
      cases b with
      | nil => right; right; rfl
      | cons bh bt => left; rfl
  | cons ah a1 ih =>
      intro b
      cases b with
      | nil => right; left; rfl
      | cons bh bt =>
          by_cases h : ah = bh
          · subst h
            rcases ih bt with h1 | h1 | h1
            · left; simp [charsLtb, h1]
            · right; left; simp [charsLtb, h1]
            · right; right; rw [h1]
          · rcases lt_trichotomy ah bh with hlt | heq | hgt
            · left; simp [charsLtb, if_neg h, hlt]
            · exact absurd heq h
            · right; left; simp [charsLtb, if_neg (Ne.symm h), hgt]

theorem keyLtb_irrefl (a : Option String) : keyLtb a a = false := by
  cases a with
  | none => rfl
  | some s => exact charsLtb_irrefl s.data

theorem keyLtb_trans {a b c : Option String} (h1 : keyLtb a b = true)
    (h2 : keyLtb b c = true) : keyLtb a c = true := by
  cases a with
  | none => cases b <;> simp [keyLtb] at h1
  | some sa =>
      cases b with
      | none => cases c <;> simp [keyLtb] at h2
      | some sb =>
          cases c with
          | none => rfl
          | some sc => exact charsLtb_trans _ _ _ h1 h2

theorem keyLtb_conn : ∀ (a b : Option String),
    keyLtb a b = true ∨ keyLtb b a = true ∨ a = b := by
  intro a b
  cases a with
  | none =>
      cases b with
      | none => right; right; rfl
      | some sb => right; left; rfl
  | some sa =>
      cases b with
      | none => left; rfl
      | some sb =>
          rcases charsLtb_conn sa.data sb.data with h | h | h
          · left; exact h
          · right; left; exact h
          · right; right
            cases sa; cases sb
            simp only at h
            rw [h]

theorem keyLtb_asymm {a b : Option String} (h : keyLtb a b = true) : keyLtb b a = false := by
  by_contra hne
  have h2 : keyLtb b a = true := by
    cases e : keyLtb b a
    · exact absurd e hne
    · rfl
  have := keyLtb_trans h h2
  rw [keyLtb_irrefl] at this
  exact Bool.false_ne_true this

theorem keyLeb_trans {a b c : Option String} (h1 : keyLeb a b = true)
    (h2 : keyLeb b c = true) : keyLeb a c = true := by
  unfold keyLeb at h1 h2 ⊢
  rw [Bool.not_eq_true'] at h1 h2 ⊢
  cases e : keyLtb c a
  · rfl
  · exfalso
    rcases keyLtb_conn b c with hbc | hcb | heq
    · rw [keyLtb_trans hbc e] at h1; exact Bool.noConfusion h1
    · rw [hcb] at h2; exact Bool.noConfusion h2
    · rw [heq] at h1; rw [e] at h1; exact Bool.noConfusion h1

theorem keyLeb_total (a b : Option String) : keyLeb a b = true ∨ keyLeb b a = true := by
  unfold keyLeb
  rw [Bool.not_eq_true', Bool.not_eq_true']
  cases e : keyLtb b a
  · left; rfl
  · right; exact keyLtb_asymm e

theorem divSortRel_iff (r s : Row) :
    divSortRel r s ↔ (keyLtb r.courseCode s.courseCode = true ∨
      (r.courseCode = s.courseCode ∧ keyLeb r.secName s.secName = true)) := by
  unfold divSortRel divSortLe
  rw [Bool.or_eq_true, Bool.and_eq_true, beq_iff_eq]

theorem divSortRel_trans_thm : ∀ a b c : Row, divSortRel a b → divSortRel b c → divSortRel a c := by
  intro a b c hab hbc
  rw [divSortRel_iff] at hab hbc ⊢
  rcases hab with h1 | ⟨e1, l1⟩ <;> rcases hbc with h2 | ⟨e2, l2⟩
  · exact Or.inl (keyLtb_trans h1 h2)
  · exact Or.inl (e2 ▸ h1)
  · exact Or.inl (e1.symm ▸ h2)
  · exact Or.inr ⟨e1.trans e2, keyLeb_trans l1 l2⟩

theorem divSortRel_total_thm : ∀ a b : Row, divSortRel a b ∨ divSortRel b a := by
  intro a b
  rw [divSortRel_iff, divSortRel_iff]
  rcases keyLtb_conn a.courseCode b.courseCode with h | h | h
  · exact Or.inl (Or.inl h)
  · exact Or.inr (Or.inl h)
  · rcases keyLeb_total a.secName b.secName with h2 | h2
    · exact Or.inl (Or.inr ⟨h, h2⟩)
    · exact Or.inr (Or.inr ⟨h.symm, h2⟩)

theorem matchPlusAt_shape {cs m : List Char} (h : matchPlusAt cs = some m) :
    ∃ u d, m = u ++ '-' :: d := by
  unfold matchPlusAt at h
  by_cases h1 : (upperRun cs).1.isEmpty
  · rw [if_pos h1] at h; exact absurd h (by simp)
  · rw [if_neg h1] at h
    split at h
    · rename_i rest heq
      dsimp only at h
      by_cases h2 : (digitRun rest).1.isEmpty
      · rw [if_pos h2] at h; exact absurd h (by simp)
      · rw [if_neg h2] at h
        exact ⟨_, _, (Option.some.inj h).symm⟩
    · exact absurd h (by simp)

theorem searchPlus_dash {cs m : List Char} (h : searchPlus cs = some m) : '-' ∈ m := by
  induction cs with
  | nil => simp [searchPlus] at h
  | cons c cs ih =>
      unfold searchPlus at h
      cases e : matchPlusAt (c :: cs) with
      | some m2 =>
          rw [e] at h
          obtain ⟨u, d, hm⟩ := matchPlusAt_shape e
          have h2 : some m2 = some m := h
          have : m = m2 := (Option.some.inj h2).symm
          subst this
          rw [hm]
          exact List.mem_append_right u (List.mem_cons_self _ _)
      | none =>
          rw [e] at h
          exact ih h

theorem extractPlus_ne_total (s : String) : extractPlus s ≠ some "Total" := by
  intro h
  unfold extractPlus at h
  cases e : searchPlus s.data with
  | none => rw [e] at h; exact Option.noConfusion h
  | some m =>
      rw [e] at h
      have h2 : some (String.mk m) = some "Total" := h
      have hdash : '-' ∈ m := searchPlus_dash e
      have hm : m = "Total".data := congrArg String.data (Option.some.inj h2)
      rw [hm] at hdash
      exact absurd hdash (by decide)

theorem bind_extractPlus_ne_total (o : Option String) : o.bind extractPlus ≠ some "Total" := by
  cases o with
  | none => simp
  | some s => exact extractPlus_ne_total s

theorem divLoop_grandOrig (lk : String → ℚ) (dc : String) :
    ∀ (rows : List Row) (st : DivState),
      (divLoop lk dc rows st).2.1 =
        st.grandOrig + (rows.map (fun r => r.totalFte.getD 0)).sum := by
  intro rows
  induction rows with
  | nil =>
      intro st
      unfold divLoop
      cases h : st.cur <;> simp
  | cons r rest ih =>
      intro st
      unfold divLoop
      dsimp only
      rw [ih]
      dsimp only [List.map_cons, List.sum_cons]
      ring

theorem sectionRowDiv_not_total {dc : String} {fr sc : Bool} {r : Row} {tf adj : ℚ}
    (h : r.courseCode ≠ some "Total") :
    (sectionRowDiv dc fr sc r tf adj).courseCode ≠ Cell.str "Total" := by
  unfold sectionRowDiv
  dsimp only
  cases sc with
  | false => simp
  | true =>
      simp only [if_true]
      cases e : r.courseCode with
      | none => simp [cellOfStr]
      | some c =>
          simp only [cellOfStr, ne_eq, Cell.str.injEq]
          intro hc
          exact h (by rw [e, hc])

theorem divLoop_subtotals (lk : String → ℚ) (dc : String) :
    ∀ (rows : List Row) (st : DivState),
      (∀ r ∈ rows, r.courseCode ≠ some "Total") →
      (divLoop lk dc rows st).2.2 =
        st.grandGen + (subtotalGens (divLoop lk dc rows st).1).sum := by
  intro rows
  induction rows with
  | nil =>
      intro st _
      unfold divLoop
      cases h : st.cur <;> simp [subtotalGens, totalRow, cellToNum]
  | cons r rest ih =>
      intro st hno
      have hr : r.courseCode ≠ some "Total" := hno r (List.mem_cons_self r rest)
      have hrest : ∀ x ∈ rest, x.courseCode ≠ some "Total" :=
        fun x hx => hno x (List.mem_cons_of_mem r hx)
      unfold divLoop
      dsimp only
      rw [ih _ hrest]
      unfold subtotalGens
      rw [List.filterMap_append]
      by_cases hb : (match st.cur with
        | none => false
        | some c => courseNe r.courseCode c) = true
      · rw [if_pos hb, if_pos hb, if_pos hb]
        have hs : (sectionRowDiv dc st.firstRow
            (match st.cur with
              | none => true
              | some c => courseNe r.courseCode c) r (r.totalFte.getD 0)
            (r.totalFte.getD 0 * (lk (match r.secName with
              | some s => pyTake s 3
              | none => "") + 1926))).courseCode ≠ Cell.str "Total" :=
          sectionRowDiv_not_total hr
        simp only [List.filterMap_cons, totalRow, if_pos rfl, cellToNum]
        rw [if_neg hs]
        simp [List.sum_cons]
        ring
      · rw [if_neg hb, if_neg hb, if_neg hb]
        have hs : (sectionRowDiv dc st.firstRow
            (match st.cur with
              | none => true
              | some c => courseNe r.courseCode c) r (r.totalFte.getD 0)
            (r.totalFte.getD 0 * (lk (match r.secName with
              | some s => pyTake s 3
              | none => "") + 1926))).courseCode ≠ Cell.str "Total" :=
          sectionRowDiv_not_total hr
        simp only [List.filterMap_cons]
        rw [if_neg hs]
        simp

theorem courseNe_none_left (c : Option String) : courseNe none c = true := rfl

theorem courseNe_right_none (course : Option String) : courseNe course none = true := by
  cases course <;> rfl

theorem naFollowed_cons_not_na {r : DivRow} {rest : List DivRow}
    (hr : r.courseCode ≠ Cell.na) (h : naFollowed rest) : naFollowed (r :: rest) := by
  cases rest with
  | nil => exact hr
  | cons r2 t => exact ⟨fun h2 => absurd h2 hr, h⟩

theorem naFollowed_cons_total {r r2 : DivRow} {t : List DivRow}
    (h : naFollowed (r2 :: t)) (h2 : r2.courseCode = Cell.str "Total") :
    naFollowed (r :: r2 :: t) := ⟨fun _ => h2, h⟩

theorem sectionRowDiv_cc_ne_na {dc : String} {fr sc : Bool} {r : Row} {tf adj : ℚ}
    (h : r.courseCode ≠ none) :
    (sectionRowDiv dc fr sc r tf adj).courseCode ≠ Cell.na := by
  unfold sectionRowDiv
  dsimp only
  cases sc with
  | false => simp
  | true =>
      simp only [if_true]
      cases e : r.courseCode with
      | none => exact absurd e h
      | some c => simp [cellOfStr]

theorem sectionRowDiv_cc_na {dc : String} {fr : Bool} {r : Row} {tf adj : ℚ}
    (h : r.courseCode = none) :
    (sectionRowDiv dc fr true r tf adj).courseCode = Cell.na := by
  unfold sectionRowDiv
  dsimp only
  rw [h]
  rfl

theorem divLoop_naFollowed (lk : String → ℚ) (dc : String) :
    ∀ (rows : List Row) (st : DivState),
      naFollowed (divLoop lk dc rows st).1 ∧
      (st.cur = some none →
        ∃ q l2, (divLoop lk dc rows st).1 = totalRow q :: l2) := by
  intro rows
  induction rows with
  | nil =>
      intro st
      unfold divLoop
      cases h : st.cur with
      | none =>
          refine ⟨trivial, fun hc => ?_⟩
          exact Option.noConfusion hc
      | some c =>
          refine ⟨?_, fun _ => ⟨st.courseTotal, [], rfl⟩⟩
          show (totalRow st.courseTotal).courseCode ≠ Cell.na
          simp [totalRow]
  | cons r rest ih =>
      intro st
      unfold divLoop
      dsimp only
      obtain ⟨ih1, ih2⟩ := ih
        { cur := some r.courseCode,
          courseTotal := (if (match st.cur with
            | none => false
            | some c => courseNe r.courseCode c) = true then 0 else st.courseTotal) +
            r.totalFte.getD 0 * (lk (match r.secName with
              | some s => pyTake s 3
              | none => "") + 1926),
          firstRow := false,
          grandOrig := st.grandOrig + r.totalFte.getD 0,
          grandGen := if (match st.cur with
            | none => false
            | some c => courseNe r.courseCode c) = true then
              st.grandGen + st.courseTotal else st.grandGen }
      by_cases hb : (match st.cur with
        | none => false
        | some c => courseNe r.courseCode c) = true
      · simp only [if_pos hb] at ih1 ih2 ⊢
        simp only [List.cons_append, List.nil_append]
        cases hc : r.courseCode with
        | some c =>
            rw [hc] at ih1 ih2
            refine ⟨?_, fun _ => ⟨st.courseTotal, _, rfl⟩⟩
            refine naFollowed_cons_not_na (by simp [totalRow]) ?_
            refine naFollowed_cons_not_na (sectionRowDiv_cc_ne_na (by rw [hc]; simp)) ih1
        | none =>
            rw [hc] at ih1 ih2
            obtain ⟨q, l2, hout⟩ := ih2 (by simp)
            refine ⟨?_, fun _ => ⟨st.courseTotal, _, rfl⟩⟩
            refine naFollowed_cons_not_na (by simp [totalRow]) ?_
            rw [hout]
            rw [hout] at ih1
            exact naFollowed_cons_total ih1 rfl
      · simp only [if_neg hb] at ih1 ih2 ⊢
        simp only [List.cons_append, List.nil_append]
        constructor
        · cases hc : r.courseCode with
          | some c =>
              rw [hc] at ih1 ih2
              exact naFollowed_cons_not_na (sectionRowDiv_cc_ne_na (by rw [hc]; simp)) ih1
          | none =>
              rw [hc] at ih1 ih2
              obtain ⟨q, l2, hout⟩ := ih2 (by simp)
              rw [hout]
              rw [hout] at ih1
              exact naFollowed_cons_total ih1 rfl
        · intro hcur
          exfalso
          apply hb
          rw [hcur]
          exact courseNe_right_none r.courseCode


theorem courseLoop_origSum (lk : String → ℚ) (b : ℚ) :
    ∀ (rows : List Row) (rs : List CourseRow) (o g : ℚ),
      courseLoop lk b rows = Except.ok (rs, o, g) →
      o = (rows.map (fun r => r.totalFte.getD 0)).sum := by
  intro rows
  induction rows with
  | nil =>
      intro rs o g h
      unfold courseLoop at h
      simp only [Except.ok.injEq, Prod.mk.injEq] at h
      rw [← h.2.1]
      simp
  | cons r rest ih =>
      intro rs o g h
      unfold courseLoop at h
      cases hs : r.secName with
      | none => rw [hs] at h; exact absurd h (by simp)
      | some sn =>
          rw [hs] at h
          cases hrec : courseLoop lk b rest with
          | error e => rw [hrec] at h; exact absurd h (by simp)
          | ok p =>
              obtain ⟨rows2, o2, g2⟩ := p
              rw [hrec] at h
              simp only [Except.ok.injEq, Prod.mk.injEq] at h
              rw [← h.2.1, ih rows2 o2 g2 hrec]
              simp

theorem divPrepared_no_total (file : List Row) (dc : String) :
    ∀ r ∈ divPrepared file dc, r.courseCode ≠ some "Total" := by
  intro r hr
  unfold divPrepared at hr
  have hp := List.perm_insertionSort divSortRel
    ((file.filter (fun r => r.secDivisions == some dc)).map
      (fun r => { r with courseCode := r.secName.bind extractPlus }))
  rw [hp.mem_iff] at hr
  obtain ⟨x, _, rfl⟩ := List.mem_map.1 hr
  exact bind_extractPlus_ne_total x.secName

theorem fte_by_div_raw_some {file : List Row} {t : List TierRow} {d : String}
    {rows : List DivRow} {o g : ℚ} (h : fte_by_div_raw file t d = (some rows, o, g)) :
    rows = (divLoop (fteLookup t) (pyUpper d) (divPrepared file (pyUpper d)) divInit).1 ∧
    o = (divLoop (fteLookup t) (pyUpper d) (divPrepared file (pyUpper d)) divInit).2.1 ∧
    g = (divLoop (fteLookup t) (pyUpper d) (divPrepared file (pyUpper d)) divInit).2.2 := by
  unfold fte_by_div_raw at h
  dsimp only at h
  split at h
  · exact absurd (congrArg Prod.fst h) (by simp)
  · obtain ⟨h1, h2⟩ := Prod.mk.inj h
    refine ⟨(Option.some.inj h1).symm, ?_, ?_⟩
    · exact (congrArg Prod.fst h2).symm
    · exact (congrArg Prod.snd h2).symm

theorem calc_course_some {df : List Row} {t : List TierRow} {cc : String} {b : ℚ}
    {rows : List CourseRow} {o g : ℚ}
    (h : calculate_fte_by_course df t cc b = Except.ok (some rows, o, g)) :
    ∃ rows', courseLoop (fteLookup t) b
        (dedupBySecName (df.filter (fun r => r.courseCode == some (pyUpper cc)))) =
        Except.ok (rows', o, g) ∧
      rows = (rows' ++ [courseTotalRow o g]).map (fun r =>
        match r.generatedFte with
        | Cell.num q => { r with generatedFte := Cell.str (formatCurrency 2 q) }
        | _ => r) := by
  unfold calculate_fte_by_course at h
  dsimp only at h
  split at h
  · exact absurd h (by simp)
  · split at h
    · exact absurd h (by simp)
    · rename_i rows' o' g' heq
      simp only [Except.ok.injEq, Prod.mk.injEq, Option.some.injEq] at h
      obtain ⟨hrows, ho, hg⟩ := h
      refine ⟨rows', ?_, ?_⟩
      · rw [← ho, ← hg]; exact heq
      · rw [← ho, ← hg]; exact hrows.symm

unseal Rat.mul Rat.inv Rat.add Rat.sub Rat.ofScientific in
/-- C1 (counterexample): in scenario S1 the claim says the formatted
    division-view *section* row shows `Generated FTE = "$2,812.000"`; the code
    stores the section row's value as the plain string `f"{x:.2f}" = "2812.00"`,
    which `format_fte_output` does not touch (it only formats numeric cells),
    so the formatted section row shows `"2812.00"`, not `"$2,812.000"`. -/
theorem C1_s1_counterexample :
    s1form.map DivRow.generatedFte =
      [Cell.str "2812.00", Cell.str "$2,812.000", Cell.str "$2,812.00"] ∧
    Cell.str "2812.00" ≠ Cell.str "$2,812.000" := by decide

unseal Rat.mul Rat.inv Rat.add Rat.sub Rat.ofScientific in
/-- C1 (amended): scenario S1 end to end.  The merger computes
    `totalFte = round(3*16*15/512, 3) = 1.406`; the aggregator computes
    `generatedFte = 1.406 * (74 + 1926) = 2812.0` and returns
    `originalTotal = 1.406`, `generatedTotal = 2812.0`; the raw section row
    stores the string `"2812.00"` while the `"Total"` subtotal row carries the
    numeric `2812.0`; after formatting, the subtotal row shows `"$2,812.000"`
    and the `"DIVISION TOTAL"` grand-total row shows `"$2,812.00"`. -/
theorem C1_s1_scenario :
    (readfile s1dean s1ref).map Row.totalFte = [some (1.406 : ℚ)] ∧
    s1out.2.1 = (1.406 : ℚ) ∧ s1out.2.2 = 2812 ∧
    s1rows.map DivRow.generatedFte = [Cell.str "2812.00", Cell.num 2812] ∧
    s1form.map DivRow.courseCode =
      [Cell.str "ABC-101", Cell.str "Total", Cell.str "DIVISION TOTAL"] ∧
    s1form.map DivRow.generatedFte =
      [Cell.str "2812.00", Cell.str "$2,812.000", Cell.str "$2,812.00"] := by decide

unseal Rat.mul Rat.inv Rat.add Rat.sub Rat.ofScientific in
/-- C4 (counterexample): the claim says stripping and parsing a formatted
    division-view *section* row yields `round(v, 3)`.  For the section value
    `v = 0.001 * 1926 = 1.926` the code renders `f"{v:.2f}" = "1.93"`, whose
    parse is `round(v, 2) = 1.93 ≠ round(v, 3) = 1.926`. -/
theorem C4_roundtrip_counterexample :
    (c4form.map DivRow.generatedFte).head? = some (Cell.str "1.93") ∧
    parseDec (stripMoney ("1.93".data)) = roundTo 2 (1.926 : ℚ) ∧
    roundTo 2 (1.926 : ℚ) ≠ roundTo 3 (1.926 : ℚ) := by decide

/-- C4 (amended): the format round-trip holds at each precision the code
    actually uses — `parse(strip(format(v)))` equals `round(v, p)` — with
    `p = 2` for plain-string division-view section rows (`f"{v:.2f}"`),
    `p = 3` for the currency-formatted division-view subtotal rows
    (`"${:,.3f}"`), and `p = 2` for the course/instructor rows and all grand
    totals (`"${:,.2f}"`). -/
theorem C4_format_roundtrip : ∀ v : ℚ,
    parseDec (stripMoney (formatFixed 2 v).data) = roundTo 2 v ∧
    parseDec (stripMoney (formatCurrency 3 v).data) = roundTo 3 v ∧
    parseDec (stripMoney (formatCurrency 2 v).data) = roundTo 2 v :=
  fun v => ⟨parse_strip_formatFixed 2 v, parse_strip_formatCurrency 3 v,
    parse_strip_formatCurrency 2 v⟩

unseal Rat.mul Rat.inv Rat.add Rat.sub Rat.ofScientific in
/-- C8 (code_bug): the spec's shared edge policy says a missing `sectionName`
    is treated as a multiplier-lookup miss in all three views, but
    `calculate_fte_by_course` slices `row['Sec Name'][:3]` without a guard
    (line 332) and raises `TypeError` on a row with a missing `Sec Name` and a
    present `Course Code`; the division and instructor views process the same
    row with multiplier `0` as specified. -/
theorem C8_missing_secname_bug :
    calculate_fte_by_course [c8row] [] "ENG-111" 1926 =
      Except.error "TypeError: float object is not subscriptable" ∧
    (fte_by_div_raw [c8row] [] "SCI").2.2 = 1926 ∧
    (generate_faculty_fte_report [c8row] [] "Smith, A").2.2 = 1926 := by
  refine ⟨rfl, by decide, by decide⟩

unseal Rat.mul Rat.inv Rat.add Rat.sub Rat.ofScientific in
/-- C9 (counterexample): the claim says a zero-capacity row in the course view
    displays `"0%"`; `calculate_fte_by_course` (lines 339-341) only computes a
    percentage when `capacity > 0`, so a zero-capacity row displays blank. -/
theorem C9_zero_capacity_counterexample :
    c9out.map CourseRow.enrollmentPer = [Cell.blank, Cell.blank] ∧
    Cell.blank ≠ Cell.str "0%" := by decide

unseal Rat.mul Rat.inv Rat.add Rat.sub Rat.ofScientific in
/-- C9 (amended): for a row with `capacity = 0` and a present FTE count, the
    division view (`fte_by_div_raw`, lines 182-184) and the course view
    (`calculate_fte_by_course`, lines 339-341) both display a blank enrollment
    percentage, while the standalone per-row helper `calc_enrollment` and the
    instructor view's enrollment helper display `"0%"` (instructor view shown
    end to end on a concrete zero-capacity row). -/
theorem C9_zero_capacity :
    (∀ (r : Row) (f : ℚ), r.capacity = some 0 → r.fteCount = some f →
      enrollmentCellDiv r = Cell.blank ∧ enrollmentCellCourse r = Cell.blank ∧
      calc_enrollment r.capacity r.fteCount = "0%" ∧
      calculate_enrollment_percentage r.fteCount r.capacity = "0%") ∧
    (generate_faculty_fte_report [c9irow] [] "Jones, B").1.map FacRow.enrollmentPer =
      [Cell.str "0%", Cell.na] := by
  constructor
  · intro r f hc hf
    refine ⟨?_, ?_, ?_, ?_⟩
    · unfold enrollmentCellDiv
      rw [hc, hf]
      simp
    · unfold enrollmentCellCourse
      rw [hc, hf]
      simp
    · unfold calc_enrollment
      rw [hc, hf]
      simp
    · unfold calculate_enrollment_percentage calc_enrollment
      rw [hc, hf]
      simp
  · decide

/-- C9 (witness): the amended statement applied to the concrete zero-capacity
    row `c9row`. -/
theorem C9_zero_capacity_witness :
    enrollmentCellDiv c9row = Cell.blank ∧ enrollmentCellCourse c9row = Cell.blank ∧
    calc_enrollment c9row.capacity c9row.fteCount = "0%" ∧
    calculate_enrollment_percentage c9row.fteCount c9row.capacity = "0%" :=
  C9_zero_capacity.1 c9row 5 rfl rfl

unseal Rat.mul Rat.inv Rat.add Rat.sub Rat.ofScientific in
/-- C6 (counterexample): the claim says both sides are normalized to upper
    case; only the key is.  A row whose stored division is the lower-case
    `"sci"` is not selected for the key `"sci"` (the code compares against
    `"SCI"`), and the no-data signal is returned even though a genuinely
    case-insensitive comparison matches the row. -/
theorem C6_case_counterexample :
    (fte_by_div_raw [c6row] [] "sci").1 = none ∧
    [c6row].filter (fun r => (r.secDivisions.map pyUpper) == some (pyUpper "sci")) ≠ [] := by
  decide

/-- C6 (amended): `fte_by_div_raw` upper-cases only the filter key: any two
    key spellings with the same upper-casing give identical results, and the
    result depends only on the rows whose stored `Sec Divisions` is exactly
    the upper-cased key (rows of any other spelling are never selected). -/
theorem C6_division_filter :
    (∀ (file : List Row) (t : List TierRow) (d₁ d₂ : String), pyUpper d₁ = pyUpper d₂ →
      fte_by_div_raw file t d₁ = fte_by_div_raw file t d₂) ∧
    (∀ (file : List Row) (t : List TierRow) (d : String),
      fte_by_div_raw file t d =
        fte_by_div_raw (file.filter (fun r => r.secDivisions == some (pyUpper d))) t d) := by
  constructor
  · intro file t d₁ d₂ h
    unfold fte_by_div_raw
    rw [h]
  · intro file t d
    unfold fte_by_div_raw divPrepared
    dsimp only
    rw [List.filter_filter]
    have hP : ∀ x : Row, ((x.secDivisions == some (pyUpper d)) &&
        (x.secDivisions == some (pyUpper d))) = (x.secDivisions == some (pyUpper d)) := by
      intro x
      cases x.secDivisions == some (pyUpper d) <;> rfl
    simp only [hP]

unseal Rat.mul Rat.inv Rat.add Rat.sub Rat.ofScientific in
/-- C6 (witness): the amended statement applied to concrete key spellings
    `"sci"` and `"Sci"` over the dataset `c5df`. -/
theorem C6_division_filter_witness :
    fte_by_div_raw c5df [] "sci" = fte_by_div_raw c5df [] "Sci" :=
  C6_division_filter.1 c5df [] "sci" "Sci" (by decide)

unseal Rat.mul Rat.inv Rat.add Rat.sub Rat.ofScientific in
/-- C5 (counterexample): the claim says all three entry points return the
    "no data" signal (a null table with zero totals) on a zero-match filter;
    `generate_faculty_fte_report` has no empty-match check and instead returns
    a one-row table holding only the `TOTAL` summary row (with zero totals),
    which is not a null table. -/
theorem C5_no_data_counterexample :
    c5df.filter (fun r => r.secFacultyInfo == some "Jones, B") = [] ∧
    (generate_faculty_fte_report c5df [] "Jones, B").1 =
      [facTotalRow 0 (formatCurrency 2 0)] ∧
    [facTotalRow 0 (formatCurrency 2 0)] ≠ ([] : List FacRow) := by decide

/-- C5 (amended): on a filter key matching zero rows, the division and course
    entry points return the distinguished no-data signal `(None, 0, 0)` and do
    not raise; the instructor entry point never signals no-data — it returns a
    table containing only the `TOTAL` summary row with zero totals (and does
    not raise either). -/
theorem C5_no_data_signal :
    (∀ (file : List Row) (t : List TierRow) (d : String),
      file.filter (fun r => r.secDivisions == some (pyUpper d)) = [] →
      fte_by_div_raw file t d = (none, 0, 0)) ∧
    (∀ (df : List Row) (t : List TierRow) (cc : String) (b : ℚ),
      df.filter (fun r => r.courseCode == some (pyUpper cc)) = [] →
      calculate_fte_by_course df t cc b = Except.ok (none, 0, 0)) ∧
    (∀ (df : List Row) (t : List TierRow) (name : String),
      df.filter (fun r => r.secFacultyInfo == some name) = [] →
      generate_faculty_fte_report df t name =
        ([facTotalRow 0 (formatCurrency 2 0)], 0, 0)) := by
  refine ⟨?_, ?_, ?_⟩
  · intro file t d h
    unfold fte_by_div_raw
    dsimp only
    rw [h]
    rfl
  · intro df t cc b h
    unfold calculate_fte_by_course
    dsimp only
    rw [h]
    rfl
  · intro df t name h
    unfold generate_faculty_fte_report
    dsimp only
    rw [h]
    rfl

unseal Rat.mul Rat.inv Rat.add Rat.sub Rat.ofScientific in
/-- C5 (witness): the amended statement applied to concrete zero-match keys
    over the dataset `c5df`. -/
theorem C5_no_data_signal_witness :
    fte_by_div_raw c5df [] "ZZZ" = (none, 0, 0) ∧
    calculate_fte_by_course c5df [] "ZZZ" 1926 = Except.ok (none, 0, 0) ∧
    generate_faculty_fte_report c5df [] "Jones, B" =
      ([facTotalRow 0 (formatCurrency 2 0)], 0, 0) :=
  ⟨C5_no_data_signal.1 c5df [] "ZZZ" (by decide),
   C5_no_data_signal.2.1 c5df [] "ZZZ" 1926 (by decide),
   C5_no_data_signal.2.2 c5df [] "Jones, B" (by decide)⟩

unseal Rat.mul Rat.inv Rat.add Rat.sub Rat.ofScientific in
/-- C7 (counterexample): the claim says every course-code derivation uses
    `[A-Z]{3}-\d{3}`; the division aggregator re-extracts with the broader
    `[A-Z]+-\d+` (line 159), so the section name `"AB-12"`, which the claimed
    pattern rejects, still yields the course code `"AB-12"` in the division
    view. -/
theorem C7_pattern_counterexample :
    extract33 "AB-12" = none ∧
    ((fte_by_div_raw [c7row] [] "SCI").1.getD []).map DivRow.courseCode =
      [Cell.str "AB-12", Cell.str "Total"] := by decide

/-- C7 (amended): the merger derives `Course Code` with `[A-Z]{3}-\d{3}`
    (`extract33`), absent when the pattern fails; the division aggregator
    defensively re-derives with the broader `[A-Z]+-\d+` (`extractPlus`) —
    its result is unchanged if every input row's `Course Code` is first
    overwritten with that re-extraction. -/
theorem C7_course_code_patterns :
    (∀ (raws : List RawRow) (refs : List FteRefRow) (r : Row),
      r ∈ readfile raws refs → r.courseCode = r.secName.bind extract33) ∧
    (∀ (file : List Row) (t : List TierRow) (d : String),
      fte_by_div_raw file t d =
        fte_by_div_raw (file.map
          (fun r => { r with courseCode := r.secName.bind extractPlus })) t d) := by
  constructor
  · intro raws refs r hr
    unfold readfile at hr
    dsimp only at hr
    rw [(List.perm_insertionSort deanSortRel _).mem_iff] at hr
    rw [List.mem_flatMap] at hr
    obtain ⟨a, _, hmem⟩ := hr
    rw [List.mem_map] at hmem
    obtain ⟨ch, _, rfl⟩ := hmem
    rfl
  · intro file t d
    unfold fte_by_div_raw divPrepared
    dsimp only
    rw [List.filter_map]
    have hc : ((fun r : Row => r.secDivisions == some (pyUpper d)) ∘
        (fun r : Row => { r with courseCode := r.secName.bind extractPlus })) =
        (fun r : Row => r.secDivisions == some (pyUpper d)) := rfl
    rw [hc]
    have hie : ∀ l : List Row, (l.map
        (fun r => { r with courseCode := r.secName.bind extractPlus })).isEmpty = l.isEmpty := by
      intro l; cases l <;> rfl
    rw [hie, List.map_map]
    rfl

unseal Rat.mul Rat.inv Rat.add Rat.sub Rat.ofScientific in
/-- C7 (witness): the amended statement's merger conjunct applied to the
    concrete merged row `c7merged` of `readfile c7raws c7refs`. -/
theorem C7_course_code_patterns_witness :
    c7merged.courseCode = c7merged.secName.bind extract33 :=
  C7_course_code_patterns.1 c7raws c7refs c7merged (by decide)

/-- C3: original-total conservation (P2).  Each entry point's returned
    `originalTotal` equals the sum of `Total FTE` over the filtered (and,
    for the course and instructor views, de-duplicated) row set, a missing
    `Total FTE` contributing `0`. -/
theorem C3_original_total :
    (∀ (file : List Row) (t : List TierRow) (d : String),
      (fte_by_div_raw file t d).2.1 =
        ((file.filter (fun r => r.secDivisions == some (pyUpper d))).map
          (fun r => r.totalFte.getD 0)).sum) ∧
    (∀ (df : List Row) (t : List TierRow) (cc : String) (b : ℚ)
      (x : Option (List CourseRow) × ℚ × ℚ),
      calculate_fte_by_course df t cc b = Except.ok x →
      x.2.1 = ((dedupBySecName (df.filter (fun r => r.courseCode == some (pyUpper cc)))).map
        (fun r => r.totalFte.getD 0)).sum) ∧
    (∀ (df : List Row) (t : List TierRow) (name : String),
      (generate_faculty_fte_report df t name).2.1 =
        ((remove_duplicate_sections (df.filter (fun r => r.secFacultyInfo == some name))).map
          (fun r => r.totalFte.getD 0)).sum) := by
  refine ⟨?_, ?_, ?_⟩
  · intro file t d
    unfold fte_by_div_raw
    dsimp only
    split
    · rename_i hemp
      rw [List.isEmpty_iff] at hemp
      rw [hemp]
      simp
    · dsimp only
      rw [divLoop_grandOrig]
      unfold divPrepared
      have hperm := (List.perm_insertionSort divSortRel
        ((file.filter (fun r => r.secDivisions == some (pyUpper d))).map
          (fun r => { r with courseCode := r.secName.bind extractPlus }))).map
        (fun r : Row => r.totalFte.getD 0)
      rw [hperm.sum_eq, List.map_map]
      show (0 : ℚ) + _ = _
      rw [zero_add]
      rfl
  · intro df t cc b x h
    unfold calculate_fte_by_course at h
    dsimp only at h
    split at h
    · rename_i hemp
      rw [List.isEmpty_iff] at hemp
      have hx : x = (none, 0, 0) := (Except.ok.inj h).symm
      rw [hx, hemp]
      simp
    · split at h
      · exact absurd h (by simp)
      · rename_i rows' o' g' heq
        have hx : x = (some ((rows' ++ [courseTotalRow o' g']).map (fun r =>
            match r.generatedFte with
            | Cell.num q => { r with generatedFte := Cell.str (formatCurrency 2 q) }
            | _ => r)), o', g') := (Except.ok.inj h).symm
        rw [hx]
        exact courseLoop_origSum _ _ _ _ _ _ heq
  · intro df t name
    rfl

unseal Rat.mul Rat.inv Rat.add Rat.sub Rat.ofScientific in
/-- C3 (witness): the course-view conjunct applied to the concrete dataset
    `c3df` (two `ENG-111` sections, one with a missing `Total FTE`). -/
theorem C3_original_total_witness :
    c3x.2.1 = ((dedupBySecName (c3df.filter
        (fun r => r.courseCode == some (pyUpper "ENG-111")))).map
      (fun r => r.totalFte.getD 0)).sum :=
  C3_original_total.2.1 c3df [] "ENG-111" 1926 c3x rfl

/-- C2: total conservation (P1).  In the division view the sum of the numeric
    `Generated FTE` values carried by the emitted `"Total"` subtotal rows
    equals the returned `generatedTotal` exactly; in the course and instructor
    views the single `COURSE TOTAL` / `TOTAL` summary row carries the grand
    total at the currency rounding precision used (its formatted string parses
    back to `round(generatedTotal, 2)`). -/
theorem C2_total_conservation :
    (∀ (file : List Row) (t : List TierRow) (d : String) (rows : List DivRow) (o g : ℚ),
      fte_by_div_raw file t d = (some rows, o, g) → (subtotalGens rows).sum = g) ∧
    (∀ (df : List Row) (t : List TierRow) (cc : String) (b : ℚ)
      (rows : List CourseRow) (o g : ℚ),
      calculate_fte_by_course df t cc b = Except.ok (some rows, o, g) →
      ∃ r, rows.getLast? = some r ∧ r.secName = Cell.str "COURSE TOTAL" ∧
        cellParse r.generatedFte = some (roundTo 2 g)) ∧
    (∀ (df : List Row) (t : List TierRow) (name : String) (r : FacRow),
      (generate_faculty_fte_report df t name).1.getLast? = some r →
      r.secName = Cell.str "TOTAL" ∧
      cellParse r.generatedFte =
        some (roundTo 2 (generate_faculty_fte_report df t name).2.2)) := by
  refine ⟨?_, ?_, ?_⟩
  · intro file t d rows o g h
    obtain ⟨hrows, -, hg⟩ := fte_by_div_raw_some h
    rw [hrows, hg]
    rw [divLoop_subtotals (fteLookup t) (pyUpper d) (divPrepared file (pyUpper d)) divInit
      (divPrepared_no_total file (pyUpper d))]
    show _ = (0 : ℚ) + _
    rw [zero_add]
  · intro df t cc b rows o g h
    obtain ⟨rows', hloop, hrows⟩ := calc_course_some h
    subst hrows
    rw [List.map_append]
    simp only [List.map_cons, List.map_nil]
    refine ⟨_, List.getLast?_concat _, rfl, ?_⟩
    exact congrArg some (parse_strip_formatCurrency 2 g)
  · intro df t name r h
    unfold generate_faculty_fte_report at h ⊢
    dsimp only at h ⊢
    rw [List.getLast?_concat] at h
    have hr := (Option.some.inj h).symm
    rw [hr]
    refine ⟨rfl, ?_⟩
    exact congrArg some (parse_strip_formatCurrency 2 _)

unseal Rat.mul Rat.inv Rat.add Rat.sub Rat.ofScientific in
/-- C2 (witness): the three conjuncts applied at concrete inputs — the
    division report over `c10file`, the course report over `c3df`, and the
    instructor report over `c5df`. -/
theorem C2_total_conservation_witness :
    (subtotalGens c10rows).sum = c10res.2.2 ∧
    (∃ r, (c3x.1.getD []).getLast? = some r ∧ r.secName = Cell.str "COURSE TOTAL" ∧
      cellParse r.generatedFte = some (roundTo 2 c3x.2.2)) ∧
    (c2frow.secName = Cell.str "TOTAL" ∧
      cellParse c2frow.generatedFte =
        some (roundTo 2 (generate_faculty_fte_report c5df [] "Smith, A").2.2)) :=
  ⟨C2_total_conservation.1 c10file [] "SCI" c10rows c10res.2.1 c10res.2.2 rfl,
   C2_total_conservation.2.1 c3df [] "ENG-111" 1926 (c3x.1.getD []) c3x.2.1 c3x.2.2 rfl,
   C2_total_conservation.2.2 c5df [] "Smith, A" c2frow rfl⟩

/-- C10: every division-view row whose re-extracted course code is missing is
    its own single-row course group — a missing code compares unequal to
    every previous course (`courseNe none x = true`), each such row in the
    emitted report is immediately followed by a `"Total"` subtotal row
    (`naFollowed`), and in the sorted working list missing-code rows come
    after every row with a present code. -/
theorem C10_missing_code_groups :
    (∀ x : Option String, courseNe none x = true) ∧
    (∀ (file : List Row) (t : List TierRow) (d : String) (rows : List DivRow) (o g : ℚ),
      fte_by_div_raw file t d = (some rows, o, g) → naFollowed rows) ∧
    (∀ (file : List Row) (dc : String),
      (divPrepared file dc).Pairwise
        (fun r s => r.courseCode = none → s.courseCode = none)) := by
  refine ⟨courseNe_none_left, ?_, ?_⟩
  · intro file t d rows o g h
    obtain ⟨hrows, -, -⟩ := fte_by_div_raw_some h
    rw [hrows]
    exact (divLoop_naFollowed _ _ _ _).1
  · intro file dc
    haveI : IsTotal Row divSortRel := ⟨divSortRel_total_thm⟩
    haveI : IsTrans Row divSortRel := ⟨fun a b c => divSortRel_trans_thm a b c⟩
    unfold divPrepared
    refine List.Pairwise.imp ?_ (List.sorted_insertionSort divSortRel _)
    intro a b hab hnone
    rw [divSortRel_iff] at hab
    rcases hab with hlt | ⟨he, -⟩
    · rw [hnone] at hlt
      exact absurd hlt (by simp [keyLtb])
    · rw [← he]
      exact hnone

unseal Rat.mul Rat.inv Rat.add Rat.sub Rat.ofScientific in
/-- C10 (witness): applied to the concrete dataset `c10file`, whose `"XYZ"`
    row has no extractable course code. -/
theorem C10_missing_code_groups_witness :
    courseNe none (some "MATH-101") = true ∧ naFollowed c10rows :=
  ⟨C10_missing_code_groups.1 (some "MATH-101"),
   C10_missing_code_groups.2.1 c10file [] "SCI" c10rows c10res.2.1 c10res.2.2 rfl⟩
